import Mathlib

/-!
Verification development for the labdropbox chunked-object storage pipeline.

The Go sources are shallowly embedded: byte slices become `List Nat`
(each element a byte value), machine integers become `Nat` (no overflow is
reachable at the modeled sizes), fallible calls return `Except`/`Option`,
and the external stores (MinIO blob store, TiDB metadata store, Redis
cache) are modeled as explicit functional state.  The read loop of
`Chunker.ChunkStream` is embedded fuel-indexed, so that its
(non-)termination is itself a provable statement.
-/

set_option maxRecDepth 100000

deriving instance DecidableEq for Except

namespace LabDropbox

/-! ## SHA-256 (crypto/sha256 + encoding/hex, as used by chunker.ComputeHash) -/

/-- Truncate to a 32-bit word, mirroring Go `uint32` arithmetic. -/
def w32 (x : Nat) : Nat := x % 2 ^ 32

/-- 32-bit right rotation. -/
def rotr (n x : Nat) : Nat := w32 ((x >>> n) ||| (x <<< (32 - n)))

/-- SHA-256 round constants (decimal). -/
def shaK : List Nat :=
  [1116352408, 1899447441, 3049323471, 3921009573, 961987163, 1508970993,
   2453635748, 2870763221, 3624381080, 310598401, 607225278, 1426881987,
   1925078388, 2162078206, 2614888103, 3248222580, 3835390401, 4022224774,
   264347078, 604807628, 770255983, 1249150122, 1555081692, 1996064986,
   2554220882, 2821834349, 2952996808, 3210313671, 3336571891, 3584528711,
   113926993, 338241895, 666307205, 773529912, 1294757372, 1396182291,
   1695183700, 1986661051, 2177026350, 2456956037, 2730485921, 2820302411,
   3259730800, 3345764771, 3516065817, 3600352804, 4094571909, 275423344,
   430227734, 506948616, 659060556, 883997877, 958139571, 1322822218,
   1537002063, 1747873779, 1955562222, 2024104815, 2227730452, 2361852424,
   2428436474, 2756734187, 3204031479, 3329325298]

/-- SHA-256 working state (eight 32-bit words). -/
structure ShaState where
  a : Nat
  b : Nat
  c : Nat
  d : Nat
  e : Nat
  f : Nat
  g : Nat
  h : Nat
deriving DecidableEq

/-- SHA-256 initial hash value (decimal). -/
def shaH0 : ShaState :=
  { a := 1779033703, b := 3144134277, c := 1013904242, d := 2773480762,
    e := 1359893119, f := 2600822924, g := 528734635, h := 1541459225 }

/-- Big-endian 32-bit word from four bytes. -/
def toWord (bs : List Nat) : Nat := bs.foldl (fun acc b => acc * 256 + b % 256) 0

/-- Big-endian bytes of a 32-bit word. -/
def wordBytes (w : Nat) : List Nat :=
  [w >>> 24 % 256, w >>> 16 % 256, w >>> 8 % 256, w % 256]

/-- SHA-256 message padding: append 0x80, zeros, and the 64-bit bit length. -/
def shaPad (msg : List Nat) : List Nat :=
  let L := msg.length
  let k := (55 + 64 - L % 64) % 64
  msg ++ [0x80] ++ List.replicate k 0 ++
    (List.range 8).map (fun i => (8 * L) >>> (8 * (7 - i)) % 256)

/-- The sixteen message words of one 64-byte block. -/
def msgWords (block : List Nat) : List Nat :=
  (List.range 16).map (fun i => toWord ((block.drop (4 * i)).take 4))

/-- Extend sixteen message words to the 64-entry message schedule. -/
def extendWords (ws : List Nat) : List Nat :=
  (List.range 48).foldl (fun ws _ =>
    let i := ws.length
    let x15 := ws.getD (i - 15) 0
    let x2 := ws.getD (i - 2) 0
    let s0 := (rotr 7 x15) ^^^ (rotr 18 x15) ^^^ (x15 >>> 3)
    let s1 := (rotr 17 x2) ^^^ (rotr 19 x2) ^^^ (x2 >>> 10)
    ws ++ [w32 (ws.getD (i - 16) 0 + s0 + ws.getD (i - 7) 0 + s1)]) ws

/-- One SHA-256 compression round. -/
def shaRound (k w : Nat) (s : ShaState) : ShaState :=
  let S1 := (rotr 6 s.e) ^^^ (rotr 11 s.e) ^^^ (rotr 25 s.e)
  let ch := (s.e &&& s.f) ^^^ ((0xffffffff ^^^ s.e) &&& s.g)
  let t1 := w32 (s.h + S1 + ch + k + w)
  let S0 := (rotr 2 s.a) ^^^ (rotr 13 s.a) ^^^ (rotr 22 s.a)
  let mj := (s.a &&& s.b) ^^^ (s.a &&& s.c) ^^^ (s.b &&& s.c)
  let t2 := w32 (S0 + mj)
  { a := w32 (t1 + t2), b := s.a, c := s.b, d := s.c,
    e := w32 (s.d + t1), f := s.e, g := s.f, h := s.g }

/-- Compress one 64-byte block into the running hash value. -/
def compressBlock (hv : ShaState) (block : List Nat) : ShaState :=
  let w := extendWords (msgWords block)
  let s := (List.range 64).foldl (fun s i => shaRound (shaK.getD i 0) (w.getD i 0) s) hv
  { a := w32 (hv.a + s.a), b := w32 (hv.b + s.b), c := w32 (hv.c + s.c),
    d := w32 (hv.d + s.d), e := w32 (hv.e + s.e), f := w32 (hv.f + s.f),
    g := w32 (hv.g + s.g), h := w32 (hv.h + s.h) }

/-- Fold the compression function over the consecutive 64-byte blocks of the
padded message (whose length is always a multiple of 64). -/
def shaBlocks (hv : ShaState) (padded : List Nat) : ShaState :=
  ((List.range (padded.length / 64)).map (fun i => (padded.drop (64 * i)).take 64)).foldl
    compressBlock hv

/-- SHA-256 digest (32 bytes) of a byte sequence. -/
def sha256 (msg : List Nat) : List Nat :=
  let hv := shaBlocks shaH0 (shaPad msg)
  wordBytes hv.a ++ wordBytes hv.b ++ wordBytes hv.c ++ wordBytes hv.d ++
    wordBytes hv.e ++ wordBytes hv.f ++ wordBytes hv.g ++ wordBytes hv.h

/-- Lowercase hexadecimal digit. -/
def hexDigit (n : Nat) : Char := Char.ofNat (if n < 10 then 48 + n else 87 + n)

/-- encoding/hex `EncodeToString` over a byte list. -/
def hexEncodeToString (bs : List Nat) : String :=
  String.mk (bs.foldr (fun b acc => hexDigit (b / 16 % 16) :: hexDigit (b % 16) :: acc) [])

/-- chunker.ComputeHash: hex-encoded SHA-256 of the data. -/
def ComputeHash (data : List Nat) : String := hexEncodeToString (sha256 data)

/-! ## Data model (internal/models/models.go) -/

/-- models.File: file metadata stored in TiDB.  `createdAt` (a Go
`time.Time`) is modeled as a plain number. -/
structure File where
  id : String
  name : String
  size : Nat
  chunkCount : Nat
  createdAt : Nat
deriving DecidableEq

/-- models.Chunk: one chunk-metadata row in TiDB. -/
structure Chunk where
  id : String
  fileID : String
  orderIndex : Nat
  hash : String
  minioObjectKey : String
  size : Nat
deriving DecidableEq, Repr

/-- models.ChunkData: chunk information during upload/download. -/
structure ChunkData where
  data : List Nat
  orderIndex : Nat
  hash : String
  size : Nat
deriving DecidableEq, Repr

instance : Inhabited ChunkData := ⟨⟨[], 0, "", 0⟩⟩

/-! ## Chunker (internal/chunker/chunker.go) -/

/-- The chunk record built inside the `ChunkStream` loop body for `n` bytes
read: data trimmed to the bytes actually read, with its hash and size. -/
def mkChunkData (data : List Nat) (orderIndex : Nat) : ChunkData :=
  { data := data, orderIndex := orderIndex, hash := ComputeHash data, size := data.length }

/-- The `for` loop of `Chunker.ChunkStream`, fuel-indexed (`none` = the fuel
ran out, i.e. the loop performed that many iterations without returning).
The `io.Reader` is embedded as the list of bytes it has yet to deliver; for
such a reader `io.ReadFull` into a `chunkSize` buffer reads
`n = min chunkSize remaining` bytes and reports `io.EOF`/`io.ErrUnexpectedEOF`
exactly when `n < chunkSize`, which is the loop's break condition.  A pure
list-backed reader never yields any other error, so the loop's error return
is unreachable here. -/
def chunkLoop (chunkSize : Nat) : Nat → List Nat → List ChunkData → Nat → Nat →
    Option (List ChunkData × Nat)
  | 0, _, _, _, _ => none
  | fuel + 1, stream, chunks, totalSize, orderIndex =>
    let n := min chunkSize stream.length
    let chunkData := stream.take n
    let chunks' := if 0 < n then chunks ++ [mkChunkData chunkData orderIndex] else chunks
    let totalSize' := if 0 < n then totalSize + n else totalSize
    let orderIndex' := if 0 < n then orderIndex + 1 else orderIndex
    if n < chunkSize then
      some (chunks', totalSize')
    else
      chunkLoop chunkSize fuel (stream.drop n) chunks' totalSize' orderIndex'

/-- Chunker.ChunkStream over a list-backed reader.  `stream.length + 1`
iterations always suffice when `0 < chunkSize` (proved below), so `none`
signals the non-terminating `chunkSize = 0` configuration. -/
def ChunkStream (chunkSize : Nat) (stream : List Nat) : Option (List ChunkData × Nat) :=
  chunkLoop chunkSize (stream.length + 1) stream [] 0 0

/-- chunker.ReassembleChunks: concatenate chunks in order (the Go code first
computes `totalSize` only as an allocation-capacity hint). -/
def ReassembleChunks (chunks : List (List Nat)) : List Nat :=
  let totalSize := chunks.foldl (fun acc chunk => acc + chunk.length) 0
  let result : List Nat := []
  let _ := totalSize
  chunks.foldl (fun result chunk => result ++ chunk) result

/-- chunker.VerifyChunkHash. -/
def VerifyChunkHash (data : List Nat) (expectedHash : String) : Bool :=
  let actualHash := ComputeHash data
  actualHash == expectedHash

/-- Closed-form chunk list: ceiling-count many chunks, the `i`-th holding
bytes `[i*s, i*s + s)` of the stream, with order indices counted from
`base`.  Proved equal to what the `ChunkStream` loop accumulates. -/
def numChunks (s n : Nat) : Nat := (n + s - 1) / s

/-- See `numChunks`. -/
def chunksFrom (s : Nat) (stream : List Nat) (base : Nat) : List ChunkData :=
  (List.range (numChunks s stream.length)).map
    (fun i => mkChunkData ((stream.drop (i * s)).take s) (base + i))

/-! ## Storage clients and handler pipeline
(internal/storage/tidb.go, redis.go, minio.go; internal/handlers) -/

/-- The external state the handlers act on.  `cache` is the result of
redis `GetFileMetadata` (`.ok none` = redis.Nil cache miss); `files` holds
the TiDB `files` rows; `chunksTable` holds the TiDB `chunks` rows for a
file id, already in the `ORDER BY order_index ASC` order the `GetChunks`
query returns them in (query transport errors are not modeled); `blob` maps
a MinIO object key to stored bytes (`none` = `GetObject` failure);
`setFails` says whether redis `SetFileMetadata` errors. -/
structure Store where
  cache : String → Except String (Option File)
  files : String → Option File
  chunksTable : String → List Chunk
  blob : String → Option (List Nat)
  setFails : Bool

/-- TiDBClient.GetFile: an absent row (`sql.ErrNoRows`) is converted into a
plain error value, indistinguishable in kind from any other error. -/
def GetFile (files : String → Option File) (fileID : String) : Except String File :=
  match files fileID with
  | none => .error ("file not found: " ++ fileID)
  | some file => .ok file

/-- RedisClient.SetFileMetadata outcome (the stored value/TTL are tracked by
the caller model). -/
def SetFileMetadata (setFails : Bool) (fileID : String) (file : File) : Except String Unit :=
  if setFails then .error "failed to set cache" else .ok ()

/-- redis.go: `CacheTTL = 5 * time.Minute`, in seconds. -/
def CacheTTL : Nat := 5 * 60

/-- TiDBClient.GetChunks. -/
def GetChunks (st : Store) (fileID : String) : Except String (List Chunk) :=
  .ok (st.chunksTable fileID)

/-- MinioClient.DownloadChunk. -/
def DownloadChunk (st : Store) (objectKey : String) : Except String (List Nat) :=
  match st.blob objectKey with
  | none => .error "failed to get object"
  | some data => .ok data

/-- Observable result of `ReadHandler.getFileMetadata`: the returned
`(*models.File, error)` pair (`.ok none` = `(nil, nil)`), how many times the
durable Metadata Store was queried for the File record, and the cache
populations that took effect, as `(key, file, ttl)` triples. -/
structure MetaLookup where
  result : Except String (Option File)
  dbQueries : Nat
  cacheWrites : List (String × File × Nat)
deriving DecidableEq

/-- ReadHandler.getFileMetadata: cache-aside resolution.  On a cache hit the
durable store is untouched; on a miss `GetFile` is consulted and, on
success, the cache is repopulated with `CacheTTL` (a failed repopulation is
only logged). -/
def getFileMetadata (st : Store) (fileID : String) : MetaLookup :=
  match st.cache fileID with
  | .error e => ⟨.error e, 0, []⟩
  | .ok (some file) => ⟨.ok (some file), 0, []⟩
  | .ok none =>
    match GetFile st.files fileID with
    | .error e => ⟨.error e, 1, []⟩
    | .ok file =>
      match SetFileMetadata st.setFails fileID file with
      | .error _ => ⟨.ok (some file), 1, []⟩
      | .ok _ => ⟨.ok (some file), 1, [(fileID, file, CacheTTL)]⟩

/-- One concurrent fetch-and-verify unit of
`ReadHandler.fetchChunksParallel`: download the chunk's object, then check
its recorded hash; either failure makes the unit report an error instead of
filling its slot. -/
def fetchUnit (st : Store) (idx : Nat) (meta : Chunk) : Except String (List Nat) :=
  match DownloadChunk st meta.minioObjectKey with
  | .error e => .error ("failed to download chunk " ++ toString idx ++ ": " ++ e)
  | .ok data =>
    if VerifyChunkHash data meta.hash then .ok data
    else .error ("hash mismatch for chunk " ++ toString idx)

/-- The per-unit results of a fetch plan, in slot (order-index) order. -/
def unitResults (st : Store) (metas : List Chunk) : List (Except String (List Nat)) :=
  metas.enum.map (fun p => fetchUnit st p.1 p.2)

/-- The error a failed unit deposits in the error channel, if any. -/
def errOf : Except String (List Nat) → Option String
  | .error e => some e
  | .ok _ => none

/-- ReadHandler.fetchChunksParallel: every unit runs (one blob download
each); if the error channel is non-empty the whole fetch fails with one of
the collected errors, otherwise the filled slots are returned in order.
The concurrent fan-out is modeled by its observable outcome: each unit
writes only its own slot, so the slot array is completion-order
independent (proved below). -/
def fetchChunksParallel (st : Store) (metas : List Chunk) : Except String (List (List Nat)) :=
  match (unitResults st metas).filterMap errOf with
  | e :: _ => .error e
  | [] => .ok ((unitResults st metas).filterMap Except.toOption)

/-- The pre-sized result-slot array written by completing units: each write
`(i, data)` sets slot `i`.  `fetchChunksParallel`'s goroutines produce one
such write per successful unit, at the unit's own index. -/
def writeSlots (slots : List (Option (List Nat))) (writes : List (Nat × List Nat)) :
    List (Option (List Nat)) :=
  writes.foldl (fun acc w => acc.set w.1 (some w.2)) slots

/-- HTTP outcome of `ReadHandler.ServeHTTP` (status + the functionally
relevant payload: the attachment filename and body bytes). -/
inductive ReadOutcome where
  | badRequest (msg : String)
  | internalError (msg : String)
  | notFound
  | ok (filename : String) (data : List Nat)
deriving DecidableEq

/-- Steps 2-5 of `ReadHandler.ServeHTTP`, after the File record has been
resolved: chunk-metadata fetch, parallel fetch-and-verify, reassembly.
Also returns how many Blob Store downloads were performed. -/
def readFromFile (st : Store) (fileID : String) (file : File) : ReadOutcome × Nat :=
  match GetChunks st fileID with
  | .error e => (.internalError ("failed to get chunks: " ++ e), 0)
  | .ok chunks =>
    match fetchChunksParallel st chunks with
    | .error e => (.internalError ("failed to fetch chunks: " ++ e), chunks.length)
    | .ok chunkData => (.ok file.name (ReassembleChunks chunkData), chunks.length)

/-- ReadHandler.ServeHTTP for `GET /read/{file_id}`, with the number of Blob
Store downloads performed. -/
def readFile (st : Store) (fileID : String) : ReadOutcome × Nat :=
  if fileID = "" then (.badRequest "missing file_id in path", 0)
  else
    match (getFileMetadata st fileID).result with
    | .error e => (.internalError ("failed to get file metadata: " ++ e), 0)
    | .ok none => (.notFound, 0)
    | .ok (some file) => readFromFile st fileID file

/-- WriteHandler.uploadChunks, segment-upload side: the `(objectKey, bytes)`
pairs uploaded to MinIO and the chunk-metadata models built alongside (the
per-chunk UUID is modeled as an opaque empty id). -/
def uploadChunks (fileID : String) (chunks : List ChunkData) :
    List (String × List Nat) × List Chunk :=
  (chunks.map (fun chunkData =>
      ("chunks/" ++ fileID ++ "/" ++ toString chunkData.orderIndex, chunkData.data)),
   chunks.map (fun chunkData =>
      { id := "", fileID := fileID, orderIndex := chunkData.orderIndex,
        hash := chunkData.hash,
        minioObjectKey := "chunks/" ++ fileID ++ "/" ++ toString chunkData.orderIndex,
        size := chunkData.size }))

/-! ## Concrete fixtures used by counterexamples and witnesses -/

/-- A File record claiming two chunks. -/
def fileA : File := { id := "f", name := "a", size := 2, chunkCount := 2, createdAt := 0 }

/-- A chunk-metadata row whose recorded hash matches the stored bytes `[7]`. -/
def chunkA : Chunk :=
  { id := "c", fileID := "f", orderIndex := 0, hash := ComputeHash [7],
    minioObjectKey := "chunks/f/0", size := 1 }

/-- A chunk-metadata row pointing at object key `"k"` with recorded hash `"x"`. -/
def chunkB : Chunk :=
  { id := "c2", fileID := "g", orderIndex := 0, hash := "x", minioObjectKey := "k", size := 1 }

/-- A store holding nothing at all. -/
def stEmpty : Store :=
  { cache := fun _ => .ok none, files := fun _ => none, chunksTable := fun _ => [],
    blob := fun _ => none, setFails := false }

/-- A store where file `"f"` is cached with `chunkCount = 2` but only one
chunk row (whose blob bytes verify) exists: a segment-count mismatch. -/
def stMismatch : Store :=
  { cache := fun fid => if fid = "f" then .ok (some fileA) else .ok none,
    files := fun _ => none,
    chunksTable := fun fid => if fid = "f" then [chunkA] else [],
    blob := fun key => if key = "chunks/f/0" then some [7] else none,
    setFails := false }

/-- A store whose cache hits for every file id. -/
def stHit : Store :=
  { cache := fun _ => .ok (some fileA), files := fun _ => none, chunksTable := fun _ => [],
    blob := fun _ => none, setFails := false }

/-- A store whose cache misses but whose durable store has the file; the
cache population succeeds. -/
def stMiss : Store :=
  { cache := fun _ => .ok none, files := fun fid => if fid = "f" then some fileA else none,
    chunksTable := fun _ => [], blob := fun _ => none, setFails := false }

/-- Same as `stMiss` but the cache population fails. -/
def stMissSetFails : Store :=
  { cache := fun _ => .ok none, files := fun fid => if fid = "f" then some fileA else none,
    chunksTable := fun _ => [], blob := fun _ => none, setFails := true }

/-! ## Chunker lemmas -/

theorem chunkLoop_succ (s fuel : Nat) (stream : List Nat) (chunks : List ChunkData)
    (total base : Nat) :
    chunkLoop s (fuel + 1) stream chunks total base =
      if min s stream.length < s then
        some
          ((if 0 < min s stream.length then
              chunks ++ [mkChunkData (stream.take (min s stream.length)) base]
            else chunks),
           (if 0 < min s stream.length then total + min s stream.length else total))
      else
        chunkLoop s fuel (stream.drop (min s stream.length))
          (if 0 < min s stream.length then
              chunks ++ [mkChunkData (stream.take (min s stream.length)) base]
            else chunks)
          (if 0 < min s stream.length then total + min s stream.length else total)
          (if 0 < min s stream.length then base + 1 else base) := rfl

theorem chunkLoop_nil (s fuel : Nat) (chunks : List ChunkData) (total base : Nat)
    (hs : 0 < s) :
    chunkLoop s (fuel + 1) [] chunks total base = some (chunks, total) := by
  rw [chunkLoop_succ]
  simp [hs]

theorem chunkLoop_small (s fuel : Nat) (stream : List Nat) (chunks : List ChunkData)
    (total base : Nat) (h0 : 0 < stream.length) (hlt : stream.length < s) :
    chunkLoop s (fuel + 1) stream chunks total base =
      some (chunks ++ [mkChunkData stream base], total + stream.length) := by
  rw [chunkLoop_succ]
  rw [Nat.min_eq_right (Nat.le_of_lt hlt)]
  simp [h0, hlt, List.take_length]

theorem chunkLoop_step (s fuel : Nat) (stream : List Nat) (chunks : List ChunkData)
    (total base : Nat) (hs : 0 < s) (hle : s ≤ stream.length) :
    chunkLoop s (fuel + 1) stream chunks total base =
      chunkLoop s fuel (stream.drop s) (chunks ++ [mkChunkData (stream.take s) base])
        (total + s) (base + 1) := by
  rw [chunkLoop_succ]
  rw [Nat.min_eq_left hle]
  simp [hs, Nat.not_lt.mpr (Nat.le_refl s)]

theorem numChunks_zero (s : Nat) (hs : 0 < s) : numChunks s 0 = 0 := by
  unfold numChunks
  exact Nat.div_eq_of_lt (by omega)

theorem numChunks_one (s n : Nat) (hs : 0 < s) (h0 : 0 < n) (hle : n ≤ s) :
    numChunks s n = 1 := by
  unfold numChunks
  exact Nat.div_eq_of_lt_le (k := 1) (by omega) (by omega)

theorem numChunks_step (s n : Nat) (hs : 0 < s) (hle : s ≤ n) :
    numChunks s n = numChunks s (n - s) + 1 := by
  unfold numChunks
  have h1 : n + s - 1 = (n - s) + s - 1 + s := by omega
  rw [h1, Nat.add_div_right _ hs]

theorem chunksFrom_nil (s : Nat) (base : Nat) (hs : 0 < s) :
    chunksFrom s [] base = [] := by
  simp [chunksFrom, numChunks_zero s hs]

theorem chunksFrom_small (s : Nat) (stream : List Nat) (base : Nat) (hs : 0 < s)
    (h0 : 0 < stream.length) (hle : stream.length ≤ s) :
    chunksFrom s stream base = [mkChunkData stream base] := by
  unfold chunksFrom
  rw [numChunks_one s stream.length hs h0 hle]
  have hr : List.range 1 = [0] := rfl
  rw [hr]
  simp only [List.map_cons, List.map_nil, Nat.zero_mul, List.drop_zero, Nat.add_zero]
  rw [List.take_of_length_le hle]

theorem chunksFrom_cons (s : Nat) (stream : List Nat) (base : Nat) (hs : 0 < s)
    (hle : s ≤ stream.length) :
    chunksFrom s stream base =
      mkChunkData (stream.take s) base :: chunksFrom s (stream.drop s) (base + 1) := by
  unfold chunksFrom
  rw [List.length_drop, numChunks_step s stream.length hs hle, List.range_succ_eq_map]
  rw [List.map_cons, List.map_map]
  congr 1
  · simp
  · apply List.map_congr_left
    intro i _
    simp only [Function.comp_apply]
    have e : Nat.succ i * s = s + i * s := by
      rw [Nat.succ_mul, Nat.add_comm]
    rw [e, ← List.drop_drop]
    congr 1
    omega

theorem chunkLoop_eq (s : Nat) (hs : 0 < s) :
    ∀ (fuel : Nat) (stream : List Nat) (chunks : List ChunkData) (total base : Nat),
      stream.length < fuel →
      chunkLoop s fuel stream chunks total base =
        some (chunks ++ chunksFrom s stream base, total + stream.length) := by
  intro fuel
  induction fuel with
  | zero => intro stream chunks total base h; omega
  | succ fuel ih =>
    intro stream chunks total base hlen
    by_cases hsmall : stream.length < s
    · match stream with
      | [] =>
        rw [chunkLoop_nil s fuel chunks total base hs, chunksFrom_nil s base hs]
        simp
      | b :: rest =>
        rw [chunkLoop_small s fuel (b :: rest) chunks total base (by simp) hsmall]
        rw [chunksFrom_small s (b :: rest) base hs (by simp) (Nat.le_of_lt hsmall)]
    · have hle : s ≤ stream.length := Nat.le_of_not_lt hsmall
      rw [chunkLoop_step s fuel stream chunks total base hs hle]
      rw [ih (stream.drop s) _ _ _ (by simp [List.length_drop]; omega)]
      rw [chunksFrom_cons s stream base hs hle]
      simp [List.length_drop, List.append_assoc]
      omega

theorem ChunkStream_eq (s : Nat) (stream : List Nat) (hs : 0 < s) :
    ChunkStream s stream = some (chunksFrom s stream 0, stream.length) := by
  unfold ChunkStream
  rw [chunkLoop_eq s hs (stream.length + 1) stream [] 0 0 (Nat.lt_succ_self _)]
  simp

theorem ReassembleChunks_eq_flatten (chunks : List (List Nat)) :
    ReassembleChunks chunks = chunks.flatten := by
  unfold ReassembleChunks
  suffices h : ∀ (acc : List Nat), chunks.foldl (fun r c => r ++ c) acc = acc ++ chunks.flatten by
    simpa using h []
  induction chunks with
  | nil => intro acc; simp
  | cons c cs ih => intro acc; simp [ih, List.append_assoc]

theorem chunksFrom_flatten (s : Nat) (hs : 0 < s) :
    ∀ (stream : List Nat) (base : Nat),
      ((chunksFrom s stream base).map ChunkData.data).flatten = stream := by
  suffices h : ∀ (n : Nat) (stream : List Nat) (base : Nat), stream.length ≤ n →
      ((chunksFrom s stream base).map ChunkData.data).flatten = stream by
    intro stream base
    exact h stream.length stream base (Nat.le_refl _)
  intro n
  induction n with
  | zero =>
    intro stream base hlen
    have : stream = [] := List.eq_nil_of_length_eq_zero (by omega)
    subst this
    rw [chunksFrom_nil s base hs]
    simp
  | succ n ih =>
    intro stream base hlen
    by_cases h0 : stream.length = 0
    · have : stream = [] := List.eq_nil_of_length_eq_zero h0
      subst this
      rw [chunksFrom_nil s base hs]
      simp
    · by_cases hle : stream.length ≤ s
      · rw [chunksFrom_small s stream base hs (by omega) hle]
        simp [mkChunkData]
      · rw [chunksFrom_cons s stream base hs (by omega)]
        simp only [List.map_cons, List.flatten_cons, mkChunkData]
        rw [ih (stream.drop s) (base + 1) (by simp [List.length_drop]; omega)]
        exact List.take_append_drop s stream

theorem chunksFrom_length (s : Nat) (stream : List Nat) (base : Nat) :
    (chunksFrom s stream base).length = numChunks s stream.length := by
  simp [chunksFrom]

theorem chunksFrom_size_data (s : Nat) (stream : List Nat) (base : Nat) :
    ∀ c ∈ chunksFrom s stream base, c.size = c.data.length := by
  intro c hc
  unfold chunksFrom at hc
  rw [List.mem_map] at hc
  obtain ⟨i, _, rfl⟩ := hc
  rfl

theorem chunksFrom_sum_sizes (s : Nat) (hs : 0 < s) (stream : List Nat) (base : Nat) :
    ((chunksFrom s stream base).map ChunkData.size).sum = stream.length := by
  have h1 : (chunksFrom s stream base).map ChunkData.size =
      (chunksFrom s stream base).map (fun c => c.data.length) :=
    List.map_congr_left (fun c hc => chunksFrom_size_data s stream base c hc)
  rw [h1]
  have h3 : ((chunksFrom s stream base).map ChunkData.data).flatten.length = stream.length := by
    rw [chunksFrom_flatten s hs stream base]
  rw [List.length_flatten, List.map_map] at h3
  exact h3

theorem numChunks_pos (s n : Nat) (hs : 0 < s) (h0 : 0 < n) : 0 < numChunks s n := by
  unfold numChunks
  exact Nat.div_pos (by omega) hs

theorem chunksFrom_ne_nil (s : Nat) (stream : List Nat) (base : Nat) (hs : 0 < s)
    (h0 : 0 < stream.length) : chunksFrom s stream base ≠ [] := by
  have h := chunksFrom_length s stream base
  intro hnil
  rw [hnil] at h
  have := numChunks_pos s stream.length hs h0
  simp at h
  omega

theorem chunksFrom_dropLast_size (s : Nat) (hs : 0 < s) :
    ∀ (stream : List Nat) (base : Nat), ∀ c ∈ (chunksFrom s stream base).dropLast,
      c.size = s := by
  suffices h : ∀ (n : Nat) (stream : List Nat) (base : Nat), stream.length ≤ n →
      ∀ c ∈ (chunksFrom s stream base).dropLast, c.size = s by
    intro stream base
    exact h stream.length stream base (Nat.le_refl _)
  intro n
  induction n with
  | zero =>
    intro stream base hlen c hc
    have : stream = [] := List.eq_nil_of_length_eq_zero (by omega)
    subst this
    rw [chunksFrom_nil s base hs] at hc
    simp at hc
  | succ n ih =>
    intro stream base hlen c hc
    by_cases h0 : stream.length = 0
    · have : stream = [] := List.eq_nil_of_length_eq_zero h0
      subst this
      rw [chunksFrom_nil s base hs] at hc
      simp at hc
    · by_cases hle : stream.length ≤ s
      · rw [chunksFrom_small s stream base hs (by omega) hle] at hc
        simp at hc
      · rw [chunksFrom_cons s stream base hs (by omega)] at hc
        have hrest : chunksFrom s (stream.drop s) (base + 1) ≠ [] := by
          apply chunksFrom_ne_nil s (stream.drop s) (base + 1) hs
          simp [List.length_drop]
          omega
        match hrr : chunksFrom s (stream.drop s) (base + 1) with
        | [] => exact absurd hrr hrest
        | r :: rs =>
          rw [hrr, List.dropLast_cons₂, List.mem_cons] at hc
          cases hc with
          | inl hc =>
            subst hc
            show (stream.take s).length = s
            rw [List.length_take]
            omega
          | inr hc =>
            apply ih (stream.drop s) (base + 1) (by simp [List.length_drop]; omega)
            rw [hrr]
            exact hc

theorem chunksFrom_getLast (s : Nat) (hs : 0 < s) :
    ∀ (stream : List Nat) (base : Nat), 0 < stream.length →
      ∃ c, (chunksFrom s stream base).getLast? = some c ∧ 1 ≤ c.size ∧ c.size ≤ s := by
  suffices h : ∀ (n : Nat) (stream : List Nat) (base : Nat), stream.length ≤ n →
      0 < stream.length →
      ∃ c, (chunksFrom s stream base).getLast? = some c ∧ 1 ≤ c.size ∧ c.size ≤ s by
    intro stream base h0
    exact h stream.length stream base (Nat.le_refl _) h0
  intro n
  induction n with
  | zero => intro stream base hlen h0; omega
  | succ n ih =>
    intro stream base hlen h0
    by_cases hle : stream.length ≤ s
    · rw [chunksFrom_small s stream base hs h0 hle]
      exact ⟨mkChunkData stream base, rfl, by simpa [mkChunkData] using h0,
        by simpa [mkChunkData] using hle⟩
    · rw [chunksFrom_cons s stream base hs (by omega)]
      have hlen2 : 0 < (stream.drop s).length := by simp [List.length_drop]; omega
      obtain ⟨c, hc, h1, h2⟩ := ih (stream.drop s) (base + 1)
        (by simp [List.length_drop]; omega) hlen2
      refine ⟨c, ?_, h1, h2⟩
      match hrr : chunksFrom s (stream.drop s) (base + 1) with
      | [] =>
        exact absurd hrr (chunksFrom_ne_nil s (stream.drop s) (base + 1) hs hlen2)
      | r :: rs =>
        rw [List.getLast?_cons_cons]
        rw [hrr] at hc
        exact hc

theorem chunksFrom_orderIndex (s : Nat) (stream : List Nat) :
    (chunksFrom s stream 0).map ChunkData.orderIndex =
      List.range (chunksFrom s stream 0).length := by
  simp only [chunksFrom, List.map_map, List.length_map, List.length_range]
  have h : (ChunkData.orderIndex ∘ fun i =>
      mkChunkData ((stream.drop (i * s)).take s) (0 + i)) = fun i => i := by
    funext i
    simp [mkChunkData]
  rw [h, List.map_id']

/-! ## Claim theorems: Segmenter -/

/-- C1: Round-trip.  For every byte sequence (including the empty one) and
every positive segment size, splitting the bytes with `ChunkStream` and then
concatenating the produced segments' data in order-index order with
`ReassembleChunks` reproduces the original byte sequence exactly. -/
theorem claim1_round_trip (s : Nat) (hs : 0 < s) (stream : List Nat) :
    ∃ chunks totalSize, ChunkStream s stream = some (chunks, totalSize) ∧
      ReassembleChunks (chunks.map ChunkData.data) = stream := by
  refine ⟨chunksFrom s stream 0, stream.length, ChunkStream_eq s stream hs, ?_⟩
  rw [ReassembleChunks_eq_flatten]
  exact chunksFrom_flatten s hs stream 0

theorem claim1_round_trip_witness :
    0 < 2 ∧ ∃ chunks totalSize, ChunkStream 2 [1, 2, 3, 4, 5] = some (chunks, totalSize) ∧
      ReassembleChunks (chunks.map ChunkData.data) = [1, 2, 3, 4, 5] :=
  ⟨by decide, claim1_round_trip 2 (by decide) [1, 2, 3, 4, 5]⟩

/-- C6: Segment count law.  For every input of length `n` and every positive
segment size `s`, the Segmenter produces exactly `⌈n / s⌉` segments when
`n > 0`, and exactly `0` segments with `total_size = 0` when `n = 0`. -/
theorem claim6_segment_count_law (s : Nat) (hs : 0 < s) (stream : List Nat) :
    ∃ chunks totalSize, ChunkStream s stream = some (chunks, totalSize) ∧
      (0 < stream.length → chunks.length = (stream.length + s - 1) / s) ∧
      (stream.length = 0 → chunks.length = 0 ∧ totalSize = 0) := by
  refine ⟨chunksFrom s stream 0, stream.length, ChunkStream_eq s stream hs, ?_, ?_⟩
  · intro _
    rw [chunksFrom_length]
    rfl
  · intro h0
    refine ⟨?_, h0⟩
    rw [chunksFrom_length, h0, numChunks_zero s hs]

theorem claim6_segment_count_law_witness :
    0 < 2 ∧ ∃ chunks totalSize, ChunkStream 2 [1, 2, 3] = some (chunks, totalSize) ∧
      (0 < [1, 2, 3].length → chunks.length = ([1, 2, 3].length + 2 - 1) / 2) ∧
      ([1, 2, 3].length = 0 → chunks.length = 0 ∧ totalSize = 0) :=
  ⟨by decide, claim6_segment_count_law 2 (by decide) [1, 2, 3]⟩

/-- C7: Segment shape.  For every non-empty input and positive segment size
`s`: every produced segment except the last has size exactly `s`; the last
segment's size is between 1 and `s`; order indices are `0, 1, 2, …` in input
order; and the returned total size is the sum of the segment sizes. -/
theorem claim7_segment_shape (s : Nat) (hs : 0 < s) (stream : List Nat)
    (hne : stream ≠ []) :
    ∃ chunks totalSize, ChunkStream s stream = some (chunks, totalSize) ∧
      (∀ c ∈ chunks.dropLast, c.size = s) ∧
      (∃ lastChunk, chunks.getLast? = some lastChunk ∧
        1 ≤ lastChunk.size ∧ lastChunk.size ≤ s) ∧
      chunks.map ChunkData.orderIndex = List.range chunks.length ∧
      totalSize = (chunks.map ChunkData.size).sum := by
  have h0 : 0 < stream.length := List.length_pos.mpr hne
  refine ⟨chunksFrom s stream 0, stream.length, ChunkStream_eq s stream hs, ?_, ?_, ?_, ?_⟩
  · exact chunksFrom_dropLast_size s hs stream 0
  · exact chunksFrom_getLast s hs stream 0 h0
  · exact chunksFrom_orderIndex s stream
  · rw [chunksFrom_sum_sizes s hs stream 0]

theorem claim7_segment_shape_witness :
    (0 < 2 ∧ ([1, 2, 3] : List Nat) ≠ []) ∧
    ∃ chunks totalSize, ChunkStream 2 [1, 2, 3] = some (chunks, totalSize) ∧
      (∀ c ∈ chunks.dropLast, c.size = 2) ∧
      (∃ lastChunk, chunks.getLast? = some lastChunk ∧
        1 ≤ lastChunk.size ∧ lastChunk.size ≤ 2) ∧
      chunks.map ChunkData.orderIndex = List.range chunks.length ∧
      totalSize = (chunks.map ChunkData.size).sum :=
  ⟨⟨by decide, by decide⟩, claim7_segment_shape 2 (by decide) [1, 2, 3] (by decide)⟩

/-- C10: `ChunkStream` terminates on every finite input when the configured
chunk size is at least 1 (`stream.length + 1` loop iterations always
return), and the positivity precondition is essential: with chunk size 0 the
loop never advances the reader and no amount of fuel makes it return, even
on empty input. -/
theorem claim10_termination (s : Nat) (stream : List Nat) (hs : 0 < s) :
    (∃ result, ChunkStream s stream = some result) ∧
    (∀ fuel, chunkLoop 0 fuel [] [] 0 0 = none) := by
  constructor
  · exact ⟨(chunksFrom s stream 0, stream.length), ChunkStream_eq s stream hs⟩
  · intro fuel
    induction fuel with
    | zero => rfl
    | succ fuel ih =>
      rw [chunkLoop_succ]
      simpa using ih

theorem claim10_termination_witness :
    0 < 1 ∧ ((∃ result, ChunkStream 1 [5] = some result) ∧
      (∀ fuel, chunkLoop 0 fuel [] [] 0 0 = none)) :=
  ⟨by decide, claim10_termination 1 [5] (by decide)⟩

/-! ## Pipeline lemmas -/

theorem getFileMetadata_result_ne_ok_none (st : Store) (fileID : String) :
    (getFileMetadata st fileID).result ≠ Except.ok none := by
  unfold getFileMetadata
  cases hc : st.cache fileID with
  | error e => simp
  | ok o =>
    cases o with
    | some f => simp
    | none =>
      cases hg : GetFile st.files fileID with
      | error e => simp
      | ok f =>
        cases hsm : SetFileMetadata st.setFails fileID f <;> simp [hsm]

theorem filterMap_errOf_eq_nil_iff (rs : List (Except String (List Nat))) :
    rs.filterMap errOf = [] ↔ ∀ r ∈ rs, r.isOk = true := by
  rw [List.filterMap_eq_nil_iff]
  constructor
  · intro h r hr
    have := h r hr
    cases r with
    | error e => simp [errOf] at this
    | ok d => rfl
  · intro h r hr
    have := h r hr
    cases r with
    | error e => simp [Except.isOk, Except.toBool] at this
    | ok d => rfl

theorem all_ok_decompose (rs : List (Except String (List Nat)))
    (h : ∀ r ∈ rs, r.isOk = true) :
    rs = (rs.filterMap Except.toOption).map Except.ok := by
  induction rs with
  | nil => rfl
  | cons r rs ih =>
    cases r with
    | error e =>
      have := h (.error e) (by simp)
      simp [Except.isOk, Except.toBool] at this
    | ok d =>
      rw [List.filterMap_cons]
      simp only [Except.toOption, List.map_cons]
      rw [← ih (fun r hr => h r (by simp [hr]))]

/-! ## Claim theorems: pipeline -/

/-- C2 counterexample: the object key uploaded for the first segment of a
write for file id `"f"` is `chunks/f/0`, not `segments/f/0` as the claim
states. -/
theorem claim2_key_counterexample :
    ((uploadChunks "f" [⟨[9], 0, "h", 1⟩]).1.getD 0 ("", [])).1 = "chunks/f/0" ∧
    ((uploadChunks "f" [⟨[9], 0, "h", 1⟩]).1.getD 0 ("", [])).1 ≠ "segments/f/0" := by
  constructor
  · rfl
  · decide

/-- C2 (amended): for every write and every produced segment, the blob-store
object key under which the segment's bytes are uploaded — also recorded in
its chunk-metadata row — is exactly `chunks/{file_id}/{order_index}`. -/
theorem claim2_object_key (fileID : String) (chunks : List ChunkData) :
    (uploadChunks fileID chunks).1.length = chunks.length ∧
    (uploadChunks fileID chunks).2.length = chunks.length ∧
    (∀ p ∈ (uploadChunks fileID chunks).1, ∃ c ∈ chunks,
      p.1 = "chunks/" ++ fileID ++ "/" ++ toString c.orderIndex ∧ p.2 = c.data) ∧
    (∀ m ∈ (uploadChunks fileID chunks).2,
      m.minioObjectKey = "chunks/" ++ fileID ++ "/" ++ toString m.orderIndex ∧
      m.fileID = fileID) := by
  refine ⟨by simp [uploadChunks], by simp [uploadChunks], ?_, ?_⟩
  · intro p hp
    unfold uploadChunks at hp
    simp only [List.mem_map] at hp
    obtain ⟨c, hc, rfl⟩ := hp
    exact ⟨c, hc, rfl, rfl⟩
  · intro m hm
    unfold uploadChunks at hm
    simp only [List.mem_map] at hm
    obtain ⟨c, _, rfl⟩ := hm
    exact ⟨rfl, rfl⟩

theorem claim2_object_key_witness :
    (⟨"", "f", 0, "h", "chunks/f/0", 1⟩ : Chunk).minioObjectKey =
      "chunks/" ++ "f" ++ "/" ++ toString (0 : Nat) ∧
    (⟨"", "f", 0, "h", "chunks/f/0", 1⟩ : Chunk).fileID = "f" :=
  (claim2_object_key "f" [⟨[9], 0, "h", 1⟩]).2.2.2 ⟨"", "f", 0, "h", "chunks/f/0", 1⟩
    (by decide)

/-- C3: reading an unknown file identifier.  The `notFound` outcome is
unreachable for every store and file id — `GetFile` converts the absent-row
case into a plain error, so `ServeHTTP`'s dedicated not-found branch never
fires — and on a store with no metadata at all the read returns a generic
internal error (while indeed performing no Blob Store calls). -/
theorem claim3_notfound_unreachable :
    (∀ (st : Store) (fileID : String), (readFile st fileID).1 ≠ ReadOutcome.notFound) ∧
    readFile stEmpty "missing" =
      (ReadOutcome.internalError "failed to get file metadata: file not found: missing", 0) := by
  constructor
  · intro st fileID
    unfold readFile
    by_cases h : fileID = ""
    · simp [h]
    · simp only [h, if_false]
      cases hm : (getFileMetadata st fileID).result with
      | error e => simp
      | ok o =>
        cases o with
        | none => exact absurd hm (getFileMetadata_result_ne_ok_none st fileID)
        | some file =>
          unfold readFromFile GetChunks
          cases hf : fetchChunksParallel st (st.chunksTable fileID) <;> simp [hf]
  · decide

/-- C4 counterexample: on a store where the File record announces 2 segments
but only one segment row exists (with verifying bytes), the read does not
fail with a data-integrity error before any blob fetch — it performs a blob
fetch and succeeds, returning the partial content. -/
theorem claim4_mismatch_counterexample :
    (stMismatch.chunksTable "f").length ≠ fileA.chunkCount ∧
    readFile stMismatch "f" = (ReadOutcome.ok "a" [7], 1) := by
  constructor
  · decide
  · decide

/-- C4 (amended): the read performs no segment-count consistency check: the
outcome of the post-metadata pipeline is independent of the File record's
`chunk_count` field, and one Blob Store fetch per fetched segment record is
performed regardless of whether the list length matches `chunk_count` — a
mismatch is silently tolerated. -/
theorem claim4_no_count_check (st : Store) (fileID : String) (file : File) (n : Nat) :
    readFromFile st fileID { file with chunkCount := n } = readFromFile st fileID file ∧
    (readFromFile st fileID file).2 = (st.chunksTable fileID).length := by
  constructor
  · rfl
  · unfold readFromFile GetChunks
    cases hf : fetchChunksParallel st (st.chunksTable fileID) <;> simp [hf]

/-- C5: all-or-nothing fetch.  If any concurrent fetch-and-verify unit fails
(blob fetch error or hash mismatch), the whole fetch returns an error and no
data; if every unit succeeds, the fetch succeeds and every result slot is
populated, in order, with its own unit's bytes. -/
theorem claim5_fetch_all_or_nothing (st : Store) (metas : List Chunk) :
    ((∃ p ∈ metas.enum, (fetchUnit st p.1 p.2).isOk = false) →
      ∃ e, fetchChunksParallel st metas = Except.error e) ∧
    ((∀ p ∈ metas.enum, (fetchUnit st p.1 p.2).isOk = true) →
      ∃ results, fetchChunksParallel st metas = Except.ok results ∧
        results.length = metas.length ∧
        unitResults st metas = results.map Except.ok) := by
  constructor
  · intro ⟨p, hp, hfail⟩
    have hmem : fetchUnit st p.1 p.2 ∈ unitResults st metas :=
      List.mem_map_of_mem (fun q => fetchUnit st q.1 q.2) hp
    have hne : (unitResults st metas).filterMap errOf ≠ [] := by
      intro hnil
      have hok := (filterMap_errOf_eq_nil_iff (unitResults st metas)).mp hnil _ hmem
      rw [hok] at hfail
      simp at hfail
    obtain ⟨e, es, he⟩ : ∃ e es, (unitResults st metas).filterMap errOf = e :: es := by
      cases he : (unitResults st metas).filterMap errOf with
      | nil => exact absurd he hne
      | cons e es => exact ⟨e, es, rfl⟩
    refine ⟨e, ?_⟩
    unfold fetchChunksParallel
    rw [he]
  · intro hall
    have hok : ∀ r ∈ unitResults st metas, r.isOk = true := by
      intro r hr
      unfold unitResults at hr
      rw [List.mem_map] at hr
      obtain ⟨p, hp, rfl⟩ := hr
      exact hall p hp
    have hnil : (unitResults st metas).filterMap errOf = [] :=
      (filterMap_errOf_eq_nil_iff (unitResults st metas)).mpr hok
    refine ⟨(unitResults st metas).filterMap Except.toOption, ?_, ?_, ?_⟩
    · unfold fetchChunksParallel
      rw [hnil]
    · have hdec := all_ok_decompose (unitResults st metas) hok
      have hlen : (unitResults st metas).length = metas.length := by
        unfold unitResults
        rw [List.length_map, List.enum_length]
      rw [hdec, List.length_map] at hlen
      exact hlen
    · exact all_ok_decompose (unitResults st metas) hok

theorem claim5_fetch_all_or_nothing_witness :
    ∃ e, fetchChunksParallel stEmpty [chunkB] = Except.error e :=
  (claim5_fetch_all_or_nothing stEmpty [chunkB]).1 ⟨(0, chunkB), by decide, by decide⟩

/-- C8: cache-aside metadata resolution.  On a cache hit the durable
Metadata Store is not queried; on a miss it is queried once and, when the
file exists, the cache is populated with the File record under the fixed
`CacheTTL`; a failed population is non-fatal (the read still resolves the
file). -/
theorem claim8_cache_aside (st : Store) (fileID : String) :
    (∀ file, st.cache fileID = Except.ok (some file) →
      getFileMetadata st fileID = ⟨Except.ok (some file), 0, []⟩) ∧
    (st.cache fileID = Except.ok none → ∀ file, st.files fileID = some file →
      (getFileMetadata st fileID).result = Except.ok (some file) ∧
      (getFileMetadata st fileID).dbQueries = 1 ∧
      (st.setFails = false →
        (getFileMetadata st fileID).cacheWrites = [(fileID, file, CacheTTL)]) ∧
      (st.setFails = true → (getFileMetadata st fileID).cacheWrites = [])) := by
  constructor
  · intro file hc
    unfold getFileMetadata
    rw [hc]
  · intro hc file hf
    have hg : GetFile st.files fileID = Except.ok file := by
      unfold GetFile
      rw [hf]
    unfold getFileMetadata
    rw [hc, hg]
    unfold SetFileMetadata
    cases hsf : st.setFails with
    | false => exact ⟨rfl, rfl, fun _ => rfl, fun h => by simp at h⟩
    | true => exact ⟨rfl, rfl, fun h => by simp at h, fun _ => rfl⟩

theorem claim8_cache_aside_witness :
    getFileMetadata stHit "f" = ⟨Except.ok (some fileA), 0, []⟩ ∧
    ((getFileMetadata stMiss "f").result = Except.ok (some fileA) ∧
      (getFileMetadata stMiss "f").dbQueries = 1 ∧
      (stMiss.setFails = false →
        (getFileMetadata stMiss "f").cacheWrites = [("f", fileA, CacheTTL)]) ∧
      (stMiss.setFails = true → (getFileMetadata stMiss "f").cacheWrites = [])) :=
  ⟨(claim8_cache_aside stHit "f").1 fileA rfl,
   (claim8_cache_aside stMiss "f").2 rfl fileA rfl⟩

/-- C9: order independence of fetch completion.  Each concurrent unit writes
only the slot at its own index, so for any two completion orders (any two
permutations of the slot-write sequence) the filled result-slot array — and
therefore the reassembled output — is identical. -/
theorem claim9_order_independence (slots : List (Option (List Nat)))
    (writes writes' : List (Nat × List Nat)) (hperm : writes.Perm writes')
    (hnodup : (writes.map Prod.fst).Nodup) :
    writeSlots slots writes = writeSlots slots writes' ∧
    ReassembleChunks ((writeSlots slots writes).map (fun o => o.getD [])) =
      ReassembleChunks ((writeSlots slots writes').map (fun o => o.getD [])) := by
  have h : writeSlots slots writes = writeSlots slots writes' := by
    unfold writeSlots
    apply hperm.foldl_eq'
    intro x hx y hy z
    by_cases hxy : x.1 = y.1
    · have hxey : x = y := List.inj_on_of_nodup_map hnodup hx hy hxy
      rw [hxey]
    · exact List.set_comm _ _ z hxy
  exact ⟨h, by rw [h]⟩

theorem claim9_order_independence_witness :
    writeSlots [none, none] [(0, [1]), (1, [2])] = writeSlots [none, none] [(1, [2]), (0, [1])] ∧
    ReassembleChunks ((writeSlots [none, none] [(0, [1]), (1, [2])]).map (fun o => o.getD [])) =
      ReassembleChunks ((writeSlots [none, none] [(1, [2]), (0, [1])]).map (fun o => o.getD [])) :=
  claim9_order_independence [none, none] [(0, [1]), (1, [2])] [(1, [2]), (0, [1])]
    (List.Perm.swap (1, [2]) (0, [1]) []) (by decide)

end LabDropbox
